/-
  Verification development for the Lu.ma event-data extractor (src/app.py).

  Shallow embedding: HTML pages are modelled as lists of elements (tag,
  class list, attributes, text) plus the raw markup string; the network is
  modelled as an explicit fetch oracle; the module-level profile cache is
  threaded as explicit state.  The specific regular expressions of the
  source are implemented as decidable matchers over character lists.
-/
import Mathlib

/-- Decides whether `p` is a (character-list) prefix of `l`. -/
def isPre : List Char → List Char → Bool
  | [], _ => true
  | _ :: _, [] => false
  | a :: as, b :: bs => a == b && isPre as bs

/-- If `p` is a prefix of `l`, strip it and return the remainder. -/
def dropStart (p l : List Char) : Option (List Char) :=
  if isPre p l then some (l.drop p.length) else none

/-- Split `l` at the first occurrence of `sep`: returns the part before and
the part after the separator (python `str.partition`-like, used to model
`urllib.parse.urlparse`). -/
def splitFirstAux (sep : List Char) : List Char → Option (List Char × List Char)
  | [] => none
  | c :: rest =>
    if isPre sep (c :: rest) then some ([], (c :: rest).drop sep.length)
    else
      match splitFirstAux sep rest with
      | some pr => some (c :: pr.1, pr.2)
      | none => none

/-- The characters excluded by the source's URL character class
(whitespace, double quote, single quote, angle brackets). -/
def allowedUrlChar (c : Char) : Bool :=
  !(c.isWhitespace || c == '"' || c.toNat == 39 || c == '<' || c == '>')

/-- Models `re` matching of a pattern of the shape
`https?://(www\.)?HOST[^\s"<>']+` at the start of `l` (python `re.match`):
returns the total matched length and whether the optional `www.` group was
present. -/
def matchUrlPatAt (host : List Char) (l : List Char) : Option (Nat × Bool) :=
  match (match dropStart "https://".data l with
         | some r => some r
         | none => dropStart "http://".data l) with
  | none => none
  | some r1 =>
    match (match dropStart ("www.".data ++ host) r1 with
           | some r => some (r, true)
           | none =>
             match dropStart host r1 with
             | some r => some (r, false)
             | none => none) with
    | none => none
    | some pr =>
      let run := pr.1.takeWhile allowedUrlChar
      if run.isEmpty then none
      else some (l.length - pr.1.length + run.length, pr.2)

/-- First match of the URL pattern anywhere in `l`, returning whether its
`(www\.)?` capture group was present (models the group value that python
`re.findall` returns when the pattern has one group). -/
def findFirstGroup (host : List Char) : List Char → Option Bool
  | [] => none
  | c :: rest =>
    match matchUrlPatAt host (c :: rest) with
    | some pr => some pr.2
    | none => findFirstGroup host rest

/-- Fuel-driven scan for all non-overlapping matches of the URL pattern:
after a match of length `n` the scan resumes past it, otherwise it
advances one character.  Every step consumes at least one character, so
fuel equal to the list length always suffices. -/
def findAllPatFuel (host : List Char) : Nat → List Char → List String
  | 0, _ => []
  | _, [] => []
  | fuel + 1, c :: rest =>
    match matchUrlPatAt host (c :: rest) with
    | some pr => String.mk ((c :: rest).take pr.1) :: findAllPatFuel host fuel (rest.drop (pr.1 - 1))
    | none => findAllPatFuel host fuel rest

/-- All non-overlapping matches of the URL pattern in `l`, as the matched
substrings (models python `re.finditer` / `match.group(0)`). -/
def findAllPat (host : List Char) (l : List Char) : List String :=
  findAllPatFuel host l.length l

/-- Substring test (python `needle in hay`). -/
def containsSubL (needle : List Char) : List Char → Bool
  | [] => isPre needle []
  | c :: rest => isPre needle (c :: rest) || containsSubL needle rest

/-- Substring test on strings. -/
def containsSub (needle hay : String) : Bool := containsSubL needle.data hay.data

/-- Full match of `^/[a-zA-Z0-9]+$` (the calendar fallback event pattern). -/
def matchEventPath (s : String) : Bool :=
  match s.data with
  | '/' :: rest => !rest.isEmpty && rest.all Char.isAlphanum
  | _ => false

/-- Full match of the relative profile pattern `^/user/[^\s"<>']+$`. -/
def matchRelUser (s : String) : Bool :=
  match dropStart "/user/".data s.data with
  | some rest => !rest.isEmpty && rest.all allowedUrlChar
  | none => false

/-- Word characters of `[\w-]`. -/
def wordChar (c : Char) : Bool := c.isAlphanum || c == '_' || c == '-'

/-- Models `re.search(r'user/([\w-]+)', url)`: the group of the leftmost
match, if any. -/
def searchUserIdL : List Char → Option String
  | [] => none
  | c :: rest =>
    match dropStart "user/".data (c :: rest) with
    | some r =>
      let run := r.takeWhile wordChar
      if run.isEmpty then searchUserIdL rest else some (String.mk run)
    | none => searchUserIdL rest

/-- `re.search(r'user/([\w-]+)', url)` on a string URL. -/
def searchUserId (s : String) : Option String := searchUserIdL s.data

/-- The scheme separator. -/
def sepL : List Char := "://".data

/-- Characters ending the network-location component of a URL. -/
def notNetlocEnd (c : Char) : Bool := !(c == '/' || c == '?' || c == '#')

/-- Characters belonging to the path component of a URL. -/
def notPathEnd (c : Char) : Bool := !(c == '?' || c == '#')

/-- `clean_url` of the source on character lists: parse the URL
(urlparse-lite: scheme before the first `://`, netloc up to `/ ? #`, path
up to `? #`) and reassemble scheme, netloc and path, dropping the query
string and fragment. -/
def cleanChars (l : List Char) : List Char :=
  match splitFirstAux sepL l with
  | some pr =>
    let netloc := pr.2.takeWhile notNetlocEnd
    let after := pr.2.drop netloc.length
    pr.1 ++ sepL ++ netloc ++ after.takeWhile notPathEnd
  | none => sepL ++ l.takeWhile notPathEnd

/-- `clean_url`: remove query parameters (and fragment) from a URL. -/
def cleanUrl (s : String) : String := String.mk (cleanChars s.data)

/-- The path component of a URL (for `urlparse(url).path`). -/
def pathChars (l : List Char) : List Char :=
  match splitFirstAux sepL l with
  | some pr =>
    let netloc := pr.2.takeWhile notNetlocEnd
    (pr.2.drop netloc.length).takeWhile notPathEnd
  | none => l.takeWhile notPathEnd

/-- python `str.strip('/')`. -/
def stripSlashes (l : List Char) : List Char :=
  ((l.dropWhile (· == '/')).reverse.dropWhile (· == '/')).reverse

/-- `urlparse(url).path.strip('/')` — the event id derivation. -/
def eventIdOf (url : String) : String := String.mk (stripSlashes (pathChars url.data))

/-- A structured absolute URL, used to state that two URLs differ only in
their query string. -/
structure Url where
  scheme : String
  netloc : String
  path : String
  query : String
deriving DecidableEq

/-- Render a structured URL to the string form the program consumes (the
query string, when nonempty, is appended after a question mark). -/
def renderUrl (u : Url) : String :=
  String.mk (u.scheme.data ++ sepL ++ u.netloc.data ++ u.path.data ++
    (if u.query.data.isEmpty then [] else '?' :: u.query.data))

/-- A parsed markup element: tag name, class tokens, attributes, text. -/
structure Elem where
  tag : String
  classes : List String
  attrs : List (String × String)
  text : String
deriving DecidableEq

/-- A fetched page: the parsed element list (document order) plus the raw
markup string (`response.text`). -/
structure Page where
  elems : List Elem
  raw : String
deriving DecidableEq

/-- `tag.get('href', '')`. -/
def hrefOf (e : Elem) : String :=
  ((e.attrs.find? (fun a => a.1 == "href")).map (fun a => a.2)).getD ""

/-- Attribute lookup. -/
def attrOf (e : Elem) (k : String) : Option String :=
  (e.attrs.find? (fun a => a.1 == k)).map (fun a => a.2)

/-- CSS class test. -/
def hasClass (e : Elem) (c : String) : Bool := e.classes.contains c

/-- `soup.find_all('a')`. -/
def anchorsOf (p : Page) : List Elem := p.elems.filter (fun e => e.tag == "a")

/-- `soup.select('a.CLS')`. -/
def selectClassA (p : Page) (c : String) : List Elem :=
  p.elems.filter (fun e => e.tag == "a" && hasClass e c)

/-- The name-selector fallback chain of `get_linkedin_url_from_luma_user`:
`h1.text-2xl` or `h2.font-bold` or `h1` or `div.fw-medium.text-ellipses`
or `div[class*="name"]`, each via `select_one` (first match in document
order). -/
def nameSel (p : Page) : Option Elem :=
  (p.elems.find? (fun e => e.tag == "h1" && hasClass e "text-2xl")).orElse fun _ =>
  (p.elems.find? (fun e => e.tag == "h2" && hasClass e "font-bold")).orElse fun _ =>
  (p.elems.find? (fun e => e.tag == "h1")).orElse fun _ =>
  (p.elems.find? (fun e => e.tag == "div" && hasClass e "fw-medium" && hasClass e "text-ellipses")).orElse fun _ =>
  p.elems.find? (fun e => e.tag == "div" && containsSub "name" (String.intercalate " " e.classes))

/-- Host-and-path part of the LinkedIn URL pattern
`https?://(www\.)?linkedin\.com/[^\s"<>']+`. -/
def linkedinHost : List Char := "linkedin.com/".data

/-- `re.match` of the LinkedIn pattern against a string. -/
def matchLinkedin (s : String) : Bool := (matchUrlPatAt linkedinHost s.data).isSome

/-- Strategy (a) of the source: the first anchor whose href the LinkedIn
pattern matches (`for a_tag in soup.find_all('a') ... break`). -/
def stratA (p : Page) : Option String :=
  ((anchorsOf p).find? (fun e => matchLinkedin (hrefOf e))).map hrefOf

/-- The social-links selection chain of the source:
`soup.select('a.social-link') or soup.select('a[aria-label="LinkedIn"]')
or soup.select('a[href*="linkedin.com"]')`. -/
def socialLinksSel (p : Page) : List Elem :=
  let s1 := p.elems.filter (fun e => e.tag == "a" && hasClass e "social-link")
  if !s1.isEmpty then s1 else
  let s2 := p.elems.filter (fun e => e.tag == "a" && attrOf e "aria-label" == some "LinkedIn")
  if !s2.isEmpty then s2 else
  p.elems.filter (fun e => e.tag == "a" && containsSub "linkedin.com" (hrefOf e))

/-- Strategy (b) of the source: first element of the social-links chain
with `'linkedin.com' in href` (this loop runs after (a) and overwrites
(a)'s value when it finds a match). -/
def stratB (p : Page) : Option String :=
  ((socialLinksSel p).find? (fun e => containsSub "linkedin.com" (hrefOf e))).map hrefOf

/-- Strategy (c) of the source: `linkedin_pattern.findall(response.text)`
followed by `matches[0]`.  Because the pattern contains the single group
`(www\.)?`, `findall` returns the group values, so the value taken is
`"www."` or `""`, not the matched URL. -/
def rawGroupC (p : Page) : Option String :=
  (findFirstGroup linkedinHost p.raw.data).map (fun b => if b then "www." else "")

/-- The LinkedIn URL chosen by `get_linkedin_url_from_luma_user`:
strategy (a) computes a candidate, the (b) loop overwrites it whenever it
matches, and (c) runs only when neither anchored strategy set a value. -/
def chooseLinkedin (p : Page) : Option String :=
  match stratB p with
  | some h => some h
  | none =>
    match stratA p with
    | some h => some h
    | none => rawGroupC p

/-- The result dictionary cached per profile
(`{'linkedin_url': ..., 'name': ...}`). -/
structure Resolved where
  linkedin_url : Option String
  name : Option String
deriving DecidableEq

/-- Parse a successfully fetched profile page into its cached result. -/
def parseProfile (p : Page) : Resolved :=
  { linkedin_url := chooseLinkedin p
    name := (nameSel p).map (fun e => e.text.trim) }

/-- Outcome of one HTTP GET: a status code with a parsed body, or a
transport failure / raised exception. -/
inductive FetchOutcome where
  | ok : Nat → Page → FetchOutcome
  | exn : FetchOutcome
deriving DecidableEq

/-- The process-wide mutable state of the resolver: the `linkedin_cache`
dict (keyed by cleaned URL; an entry may explicitly hold `none` for a
failed profile) plus a count of `requests.get` calls performed, used to
state fetch-counting properties. -/
structure RState where
  cache : List (String × Option Resolved)
  count : Nat
deriving DecidableEq

/-- Dict lookup in the cache (`clean_user_url in linkedin_cache` plus
`linkedin_cache[clean_user_url]`). -/
def lookupC (cache : List (String × Option Resolved)) (k : String) : Option (Option Resolved) :=
  (cache.find? (fun e => e.1 == k)).map (fun e => e.2)

/-- The fresh run state: empty cache, no fetches performed. -/
def rstate0 : RState := { cache := [], count := 0 }

/-- `get_linkedin_url_from_luma_user`: clean the URL, consult the cache,
otherwise GET the cleaned URL; non-200 status or an exception caches and
returns `none`; success parses the page, caches and returns the result. -/
def getLinkedinFromLumaUser (fetch : String → FetchOutcome) (st : RState) (userUrl : String) :
    Option Resolved × RState :=
  let key := cleanUrl userUrl
  match lookupC st.cache key with
  | some v => (v, st)
  | none =>
    match fetch key with
    | FetchOutcome.exn => (none, { cache := (key, none) :: st.cache, count := st.count + 1 })
    | FetchOutcome.ok status body =>
      if status ≠ 200 then (none, { cache := (key, none) :: st.cache, count := st.count + 1 })
      else
        let r := parseProfile body
        (some r, { cache := (key, some r) :: st.cache, count := st.count + 1 })

/-- `get_linkedin_url_from_luma_user` with the network modelled as a
stream of per-attempt outcomes for the requested URL.  The source contains
a single `requests.get` call and no retry loop, so the one call observes
attempt `0` of the stream. -/
def getLinkedinStream (outcomes : Nat → FetchOutcome) (st : RState) (userUrl : String) :
    Option Resolved × RState :=
  getLinkedinFromLumaUser (fun _ => outcomes 0) st userUrl

/-- The value `get_linkedin_url_from_luma_user` computes for a cleaned key
when it is not yet cached, as a pure function of the fetch oracle. -/
def computeValue (fetch : String → FetchOutcome) (key : String) : Option Resolved :=
  match fetch key with
  | FetchOutcome.exn => none
  | FetchOutcome.ok status body => if status ≠ 200 then none else some (parseProfile body)

/-- Every cache entry agrees with what resolution of its key computes
under the fetch oracle (holds for every cache produced in a run from the
empty cache with a fixed oracle). -/
def CacheConsistent (fetch : String → FetchOutcome) (cache : List (String × Option Resolved)) : Prop :=
  ∀ k v, lookupC cache k = some v → v = computeValue fetch k

/-- `urljoin("https://lu.ma", href)` for site-relative hrefs. -/
def urljoinLuma (h : String) : String := "https://lu.ma" ++ h

/-- The per-element link filter shared by the calendar's two structural
rules: keep hrefs that are nonempty, start with `/` and do not start with
`/user/`, resolved against the fixed base origin. -/
def calRuleLinks (es : List Elem) : List String :=
  es.filterMap (fun e =>
    let h := hrefOf e
    if !h.data.isEmpty && isPre "/".data h.data && !(isPre "/user/".data h.data)
    then some (urljoinLuma h) else none)

/-- The calendar's structural selector chain:
`soup.select('a.event-link') or soup.select('a.content-link')` (the second
selector is consulted only when the first matches no element). -/
def calendarStructuralElems (p : Page) : List Elem :=
  let s1 := selectClassA p "event-link"
  if s1.isEmpty then selectClassA p "content-link" else s1

/-- The calendar's generic fallback: every anchor whose href fully matches
`^/[a-zA-Z0-9]+$` and contains neither `/user/` nor `/u/`. -/
def calendarFallbackLinks (p : Page) : List String :=
  (anchorsOf p).filterMap (fun e =>
    let h := hrefOf e
    if !h.data.isEmpty && matchEventPath h && !(containsSub "/user/" h) && !(containsSub "/u/" h)
    then some (urljoinLuma h) else none)

/-- `extract_event_links_from_calendar` on a successfully fetched page:
links from the structural selector chain; if that produced no links, the
fallback scan; finally `list(set(...))` deduplication. -/
def extractEventLinksFromCalendar (p : Page) : List String :=
  let links := calRuleLinks (calendarStructuralElems p)
  let links2 := if links.isEmpty then calendarFallbackLinks p else links
  links2.dedup

/-- Claim-side definition, following the specification's rule-evaluation
policy as worded: try each structural rule in order, stop at the first
rule that yields at least one match, and only fall through to the
regular-expression scan if no structural rule matched anything. -/
def specExtractEventLinks (p : Page) : List String :=
  let r1 := calRuleLinks (selectClassA p "event-link")
  let r2 := calRuleLinks (selectClassA p "content-link")
  if !r1.isEmpty then r1.dedup
  else if !r2.isEmpty then r2.dedup
  else (calendarFallbackLinks p).dedup

/-- Claim-side definition, following the specification's social-URL
discovery policy as worded: (a) any anchor whose href matches the
social-domain pattern, then (b) any anchor within the social-links
grouping, then (c) the first regular-expression match of the pattern over
the entire raw markup (the matched URL), first match wins. -/
def specChooseSocial (p : Page) : Option String :=
  match ((anchorsOf p).filter (fun e => matchLinkedin (hrefOf e))).head?.map hrefOf with
  | some h => some h
  | none =>
    match ((socialLinksSel p).filter (fun e => containsSub "linkedin.com" (hrefOf e))).head?.map hrefOf with
    | some h => some h
    | none => (findAllPat linkedinHost p.raw.data).head?

/-- The social-URL choice the source actually implements, stated as an
ordered policy: the social-links grouping takes precedence over the
pattern-matching anchor scan, and the raw-markup fallback yields the
optional `www.` capture group of the first match rather than the URL. -/
def chooseSocialDescribed (p : Page) : Option String :=
  match ((socialLinksSel p).filter (fun e => containsSub "linkedin.com" (hrefOf e))).head?.map hrefOf with
  | some h => some h
  | none =>
    match ((anchorsOf p).filter (fun e => matchLinkedin (hrefOf e))).head?.map hrefOf with
    | some h => some h
    | none => rawGroupC p

/-- Set-style insertion used to model `user_links.add(...)` on a python
`set`: the list stays duplicate-free, its length is the set's size. -/
def addLink (acc : List String) (s : String) : List String :=
  if s ∈ acc then acc else acc ++ [s]

/-- Fold a condition-and-make pass over elements, `add`ing each produced
link (models a `for` loop over tags performing `user_links.add`). -/
def addLinksIf (cond : Elem → Bool) (mk : Elem → String) (es : List Elem) (acc : List String) :
    List String :=
  es.foldl (fun a e => if cond e then addLink a (mk e) else a) acc

/-- Host-and-path parts of the three absolute profile patterns
`https?://(www\.)?lu\.ma/user/…`, `…/u/…`, `…/p/…`. -/
def lumaHosts : List (List Char) := ["lu.ma/user/".data, "lu.ma/u/".data, "lu.ma/p/".data]

/-- The host-link selector chain of `extract_event_data`:
`soup.select('a.host-row') or soup.select('a.lux-menu-trigger-wrapper')`. -/
def eventHostEls (p : Page) : List Elem :=
  let s1 := selectClassA p "host-row"
  if s1.isEmpty then selectClassA p "lux-menu-trigger-wrapper" else s1

/-- Step 1 of participant-link discovery: host anchors whose href starts
with `/user/`, made absolute. -/
def eventStep1 (p : Page) : List String :=
  addLinksIf
    (fun e => !(hrefOf e).data.isEmpty && isPre "/user/".data (hrefOf e).data)
    (fun e => urljoinLuma (hrefOf e)) (eventHostEls p) []

/-- Step 2 of participant-link discovery, run only when step 1 produced
nothing: for each absolute profile pattern, all matching anchor hrefs plus
all raw-markup matches. -/
def eventStep2 (p : Page) : List String :=
  if (eventStep1 p).isEmpty then
    lumaHosts.foldl (fun acc host =>
      (findAllPat host p.raw.data).foldl addLink
        (addLinksIf (fun e => (matchUrlPatAt host (hrefOf e).data).isSome)
          hrefOf (anchorsOf p) acc)) (eventStep1 p)
  else eventStep1 p

/-- The participant-link discovery of `extract_event_data`: the two
conditional steps above, then unconditionally all anchors fully matching
the relative `^/user/…$` pattern, made absolute.  The accumulator models
the python `set`. -/
def eventUserLinks (p : Page) : List String :=
  addLinksIf (fun e => matchRelUser (hrefOf e))
    (fun e => urljoinLuma (hrefOf e)) (anchorsOf p) (eventStep2 p)

/-- The event metadata record assembled by `extract_event_data`. -/
structure EventData where
  event_url : String
  event_id : String
  event_name : String
  event_date : Option String
  event_description : Option String
  participant_count : Nat
deriving DecidableEq

/-- Event-name selector chain:
`select_one('h1') or select_one('h2.text-2xl') or select_one('.text-3xl')`. -/
def eventNameSel (p : Page) : Option Elem :=
  (p.elems.find? (fun e => e.tag == "h1")).orElse fun _ =>
  (p.elems.find? (fun e => e.tag == "h2" && hasClass e "text-2xl")).orElse fun _ =>
  p.elems.find? (fun e => hasClass e "text-3xl")

/-- Event-date selector chain:
`select_one('time') or select_one('p:contains("202")')`. -/
def eventDateSel (p : Page) : Option Elem :=
  (p.elems.find? (fun e => e.tag == "time")).orElse fun _ =>
  p.elems.find? (fun e => e.tag == "p" && containsSub "202" e.text)

/-- Event-description selector chain:
`select_one('div.whitespace-pre-wrap') or select_one('p.text-gray-600')`. -/
def eventDescSel (p : Page) : Option Elem :=
  (p.elems.find? (fun e => e.tag == "div" && hasClass e "whitespace-pre-wrap")).orElse fun _ =>
  p.elems.find? (fun e => e.tag == "p" && hasClass e "text-gray-600")

/-- `extract_event_data`: fetch the event page; a non-200 status or an
exception yields `(None, [])`; on success build the event record (with
`participant_count` set to the size of the discovered link set) and return
it with the participant links. -/
def extractEventData (fetch : String → FetchOutcome) (url : String) :
    Option EventData × List String :=
  match fetch url with
  | FetchOutcome.exn => (none, [])
  | FetchOutcome.ok status body =>
    if status ≠ 200 then (none, [])
    else
      let links := eventUserLinks body
      (some
        { event_url := url
          event_id := eventIdOf url
          event_name := ((eventNameSel body).map (fun e => e.text.trim)).getD "Unknown Event"
          event_date := (eventDateSel body).map (fun e => e.text.trim)
          event_description := (eventDescSel body).map (fun e => e.text.trim)
          participant_count := links.length },
       links)

/-- One row of the participant output of `fetch_participant_data`. -/
structure ParticipantRow where
  luma_profile : String
  name : Option String
  linkedin_url : Option String
  user_id : Option String
deriving DecidableEq

/-- `fetch_participant_data`: one row per submitted profile URL; a `None`
resolution result leaves name and LinkedIn URL absent.  The source
consumes futures in completion order, which is unspecified; the embedding
uses submission order (the specification makes no ordering guarantee). -/
def fetchParticipantData (fetch : String → FetchOutcome) :
    RState → List String → List ParticipantRow × RState
  | st, [] => ([], st)
  | st, url :: rest =>
    let r := getLinkedinFromLumaUser fetch st url
    let row : ParticipantRow :=
      { luma_profile := url
        name := r.1.bind Resolved.name
        linkedin_url := r.1.bind Resolved.linkedin_url
        user_id := searchUserId url }
    let rr := fetchParticipantData fetch r.2 rest
    (row :: rr.1, rr.2)

/-- The row `fetch_participant_data` produces for one profile URL, as a
pure function of the fetch oracle (what the stateful run yields when the
cache is consistent with the oracle). -/
def mkRow (fetch : String → FetchOutcome) (url : String) : ParticipantRow :=
  { luma_profile := url
    name := (computeValue fetch (cleanUrl url)).bind Resolved.name
    linkedin_url := (computeValue fetch (cleanUrl url)).bind Resolved.linkedin_url
    user_id := searchUserId url }

/-- The participant cap of `main`:
`if len(user_links) > max_participants: user_links = list(user_links)[:max_participants]`. -/
def capLinks (maxP : Nat) (links : List String) : List String :=
  if maxP < links.length then links.take maxP else links

/-- One iteration of `main`'s event loop: extract the event; only when an
event record was produced and the link set is nonempty, cap the links and
resolve the participants. -/
def processEvent (fetch : String → FetchOutcome) (maxP : Nat) (st : RState) (url : String) :
    Option EventData × List ParticipantRow × RState :=
  match extractEventData fetch url with
  | (none, _) => (none, [], st)
  | (some ed, links) =>
    if links.isEmpty then (none, [], st)
    else
      let pr := fetchParticipantData fetch st (capLinks maxP links)
      (some ed, pr.1, pr.2)

/-- `main`'s sequential event loop: accumulates `events_data` and
`all_participants` across the event URLs, threading the shared profile
cache. -/
def mainLoop (fetch : String → FetchOutcome) (maxP : Nat) :
    RState → List String → (List EventData × List (String × List ParticipantRow)) × RState
  | st, [] => (([], []), st)
  | st, url :: rest =>
    match processEvent fetch maxP st url with
    | (some ed, rows, st2) =>
      let r := mainLoop fetch maxP st2 rest
      ((ed :: r.1.1, (url, rows) :: r.1.2), r.2)
    | (none, _, st2) =>
      let r := mainLoop fetch maxP st2 rest
      (r.1, r.2)

/-- Phase of one worker running `get_linkedin_url_from_luma_user` for a
fixed cache key: before the cache check, after observing a miss, after the
GET-and-parse, and finished. -/
inductive Phase where
  | start | missed | gotData | done
deriving DecidableEq, Fintype

/-- One concurrent resolution worker: its phase plus whether it has issued
the GET (invoked the underlying computation). -/
structure W9 where
  phase : Phase
  didFetch : Bool
deriving DecidableEq, Fintype

/-- State of two thread-pool workers resolving the same normalized key
against the shared `linkedin_cache`: `present` is whether the key is in
the dict.  Individual dict operations are atomic (the interpreter lock),
but nothing serialises the check-then-fetch-then-insert sequence. -/
structure S9 where
  wa : W9
  wb : W9
  present : Bool
deriving DecidableEq, Fintype

/-- One atomic step of one worker: the cache membership check
(`key in linkedin_cache`, returning on a hit), the GET with parsing, and
the dict insertion (`linkedin_cache[key] = result`). -/
def stepW (present : Bool) (w : W9) : W9 × Bool :=
  match w.phase with
  | Phase.start =>
    if present then ({ w with phase := Phase.done }, present)
    else ({ w with phase := Phase.missed }, present)
  | Phase.missed => ({ phase := Phase.gotData, didFetch := true }, present)
  | Phase.gotData => ({ w with phase := Phase.done }, true)
  | Phase.done => (w, present)

/-- Interleaving step: schedule entry `true` runs worker `wa`, `false`
runs worker `wb`. -/
def step9 (s : S9) (i : Bool) : S9 :=
  if i then
    let r := stepW s.present s.wa
    { s with wa := r.1, present := r.2 }
  else
    let r := stepW s.present s.wb
    { s with wb := r.1, present := r.2 }

/-- Run a schedule of interleaved worker steps. -/
def run9 (sched : List Bool) (s : S9) : S9 := sched.foldl step9 s

/-- Both workers start before their cache check; the key is absent. -/
def init9 : S9 :=
  { wa := { phase := Phase.start, didFetch := false }
    wb := { phase := Phase.start, didFetch := false }
    present := false }

/-- Total number of GET invocations performed for the key. -/
def fetches9 (s : S9) : Nat :=
  (if s.wa.didFetch then 1 else 0) + (if s.wb.didFetch then 1 else 0)

/-- Both workers have returned. -/
def Done9 (s : S9) : Prop := s.wa.phase = Phase.done ∧ s.wb.phase = Phase.done

instance decDone9 (s : S9) : Decidable (Done9 s) :=
  decidable_of_iff (s.wa.phase = Phase.done ∧ s.wb.phase = Phase.done) Iff.rfl

/-- Per-worker sanity: the GET has happened exactly in the phases after
`missed`, except that a worker finished via a cache hit never fetched. -/
def invW (w : W9) : Bool :=
  match w.phase with
  | Phase.start => !w.didFetch
  | Phase.missed => !w.didFetch
  | Phase.gotData => w.didFetch
  | Phase.done => true

/-- Reachability invariant of the two-worker system: worker sanity; a
present key was written by a finished worker that fetched; a worker that
finished without fetching observed a present key; a finished worker that
fetched has written the key. -/
def inv9 (s : S9) : Bool :=
  invW s.wa && invW s.wb &&
  (!s.present || (s.wa.phase == Phase.done && s.wa.didFetch || s.wb.phase == Phase.done && s.wb.didFetch)) &&
  (!(s.wa.phase == Phase.done) || s.wa.didFetch || s.present) &&
  (!(s.wb.phase == Phase.done) || s.wb.didFetch || s.present) &&
  (!(s.wa.phase == Phase.done && s.wa.didFetch) || s.present) &&
  (!(s.wb.phase == Phase.done && s.wb.didFetch) || s.present)

/-- Claim C2 as stated: there is a fixed maximum attempt count (at least
two, since failures are retried) such that whenever the first `n` attempts
fail with a transport error and attempt `n + 1` succeeds within the
maximum, resolution of an uncached profile returns a resolved result. -/
def ClaimC2 : Prop :=
  ∃ maxA, 2 ≤ maxA ∧
    ∀ (outcomes : Nat → FetchOutcome) (url : String) (n : Nat),
      n + 1 ≤ maxA →
      (∀ i, i < n → outcomes i = FetchOutcome.exn) →
      (∃ body, outcomes n = FetchOutcome.ok 200 body) →
      ((getLinkedinStream outcomes rstate0 url).1.isSome = true)

/-- A page with no elements and empty raw markup. -/
def pageEmpty : Page := { elems := [], raw := "" }

/-- Attempt stream: the first attempt fails with a transport error, every
later attempt would succeed. -/
def cexOutcomes : Nat → FetchOutcome :=
  fun i => if i = 0 then FetchOutcome.exn else FetchOutcome.ok 200 pageEmpty

/-- Profile page on which discovery strategies (a) and (b) find different
anchors: a plain anchor to one LinkedIn profile appears first in document
order, and a `social-link` anchor to a different LinkedIn profile appears
later. -/
def pce3 : Page :=
  { elems :=
      [ { tag := "a", classes := [], attrs := [("href", "https://linkedin.com/in/alice")], text := "" }
      , { tag := "a", classes := ["social-link"], attrs := [("href", "https://linkedin.com/in/bob")], text := "" } ]
    raw := "" }

/-- Calendar page on which the first structural selector matches an
element that yields no link, the second structural rule would yield a
link, and the fallback scan yields a different link. -/
def pce4 : Page :=
  { elems :=
      [ { tag := "a", classes := ["event-link"], attrs := [("href", "https://ext.com/x")], text := "" }
      , { tag := "a", classes := ["content-link"], attrs := [("href", "/path/sub")], text := "" }
      , { tag := "a", classes := [], attrs := [("href", "/xyz")], text := "" } ]
    raw := "" }

/-- Calendar page whose first structural selector yields a link. -/
def pw4 : Page :=
  { elems := [ { tag := "a", classes := ["event-link"], attrs := [("href", "/abc")], text := "" } ]
    raw := "" }

/-- Event page with five distinct relative profile anchors. -/
def page5 : Page :=
  { elems :=
      [ { tag := "a", classes := [], attrs := [("href", "/user/a")], text := "" }
      , { tag := "a", classes := [], attrs := [("href", "/user/b")], text := "" }
      , { tag := "a", classes := [], attrs := [("href", "/user/c")], text := "" }
      , { tag := "a", classes := [], attrs := [("href", "/user/d")], text := "" }
      , { tag := "a", classes := [], attrs := [("href", "/user/e")], text := "" } ]
    raw := "" }

/-- Oracle that serves `page5` with status 200 for every URL. -/
def fetch5 : String → FetchOutcome := fun _ => FetchOutcome.ok 200 page5

/-- Oracle on which every GET raises a transport error. -/
def fetchExn : String → FetchOutcome := fun _ => FetchOutcome.exn

/-- Oracle that serves the empty page (no participant links) with
status 200 for every URL. -/
def fetchEmptyOk : String → FetchOutcome := fun _ => FetchOutcome.ok 200 pageEmpty

/-- A schedule interleaving the two workers so that both check the cache
before either writes it. -/
def cexSched : List Bool := [true, false, true, true, false, false]

/-- A schedule that serialises worker `wa` before worker `wb`. -/
def wSched : List Bool := [true, true, true, false, false, false]

/-- `fetch url` failed: a raised transport error or a non-200 status. -/
def fetchFails (fetch : String → FetchOutcome) (url : String) : Bool :=
  match fetch url with
  | FetchOutcome.exn => true
  | FetchOutcome.ok s _ => decide (s ≠ 200)

/-- A default event record, used only to name the record inside concrete
witness statements. -/
def edDefault : EventData :=
  { event_url := "", event_id := "", event_name := "", event_date := none,
    event_description := none, participant_count := 0 }

/-- A prefix of `l` is a prefix of `l ++ x`, and conversely when it is not
longer than `l`. -/
theorem isPre_append_left (p : List Char) :
    ∀ (l x : List Char), p.length ≤ l.length → isPre p (l ++ x) = isPre p l := by
  induction p with
  | nil => intro l x _; rfl
  | cons a as ih =>
    intro l x h
    cases l with
    | nil => simp at h
    | cons b bs =>
      simp only [List.cons_append, isPre]
      rw [show bs.append x = bs ++ x from rfl, ih bs x (by simpa using h)]

/-- A successful prefix test bounds the prefix length. -/
theorem isPre_length_le (p : List Char) :
    ∀ l, isPre p l = true → p.length ≤ l.length := by
  induction p with
  | nil => intro l _; simp
  | cons a as ih =>
    intro l h
    cases l with
    | nil => simp [isPre] at h
    | cons b bs =>
      simp only [isPre, Bool.and_eq_true] at h
      simpa using ih bs h.2

/-- `p` is a prefix of `p ++ x`. -/
theorem isPre_self_append (p x : List Char) : isPre p (p ++ x) = true := by
  induction p with
  | nil => rfl
  | cons a as ih => simp [isPre, ih]

/-- A successful split bounds the separator length. -/
theorem splitFirstAux_some_length (sep : List Char) :
    ∀ l pr, splitFirstAux sep l = some pr → sep.length ≤ l.length := by
  intro l
  induction l with
  | nil => intro pr h; simp [splitFirstAux] at h
  | cons c rest ih =>
    intro pr h
    by_cases hp : isPre sep (c :: rest) = true
    · exact isPre_length_le sep _ hp
    · simp only [splitFirstAux, hp, Bool.false_eq_true, if_false] at h
      cases hr : splitFirstAux sep rest with
      | none => rw [hr] at h; exact absurd h (by simp)
      | some pr2 =>
        have := ih pr2 hr
        simp [List.length_cons]
        omega

/-- Appending to the scanned list does not move a found first occurrence
of the separator: the remainder just gains the appended part. -/
theorem splitFirstAux_append (sep : List Char) :
    ∀ l pr x, splitFirstAux sep l = some pr →
      splitFirstAux sep (l ++ x) = some (pr.1, pr.2 ++ x) := by
  intro l
  induction l with
  | nil => intro pr x h; simp [splitFirstAux] at h
  | cons c rest ih =>
    intro pr x h
    by_cases hp : isPre sep (c :: rest) = true
    · have hlen := isPre_length_le sep _ hp
      have hp2 : isPre sep ((c :: rest) ++ x) = true := by
        rw [isPre_append_left sep (c :: rest) x hlen]
        exact hp
      simp only [splitFirstAux, hp, if_true, Option.some.injEq] at h
      simp only [List.cons_append] at hp2
      have hd : (c :: (rest ++ x)).drop sep.length = (c :: rest).drop sep.length ++ x := by
        rw [show c :: (rest ++ x) = (c :: rest) ++ x from rfl]
        exact List.drop_append_of_le_length hlen
      simp only [List.cons_append, splitFirstAux, List.append_eq]
      rw [if_pos hp2, ← h, hd]
    · simp only [splitFirstAux, hp, Bool.false_eq_true, if_false] at h
      cases hr : splitFirstAux sep rest with
      | none => rw [hr] at h; exact absurd h (by simp)
      | some pr2 =>
        rw [hr] at h
        have hlen : sep.length ≤ rest.length := splitFirstAux_some_length sep rest pr2 hr
        have hp2 : isPre sep (c :: rest ++ x) = false := by
          rw [show c :: rest ++ x = (c :: rest) ++ x by rfl,
              isPre_append_left sep (c :: rest) x (by simp; omega)]
          simpa using hp
        simp only [List.cons_append] at hp2 ⊢
        simp only [splitFirstAux, hp2, Bool.false_eq_true, if_false]
        rw [ih pr2 x hr]
        simp only [Option.some.injEq] at h ⊢
        rw [← h]

/-- Scanning a list that contains the separator finds it. -/
theorem splitFirstAux_sep_isSome (sep : List Char) (hsep : sep ≠ []) :
    ∀ sch, (splitFirstAux sep (sch ++ sep)).isSome = true := by
  intro sch
  induction sch with
  | nil =>
    simp only [List.nil_append]
    cases hs : sep with
    | nil => exact absurd hs hsep
    | cons a as =>
      have h1 : isPre (a :: as) (a :: as) = true := by
        have h2 := isPre_self_append (a :: as) []
        rwa [List.append_nil] at h2
      simp [splitFirstAux, h1]
  | cons c sch2 ih =>
    simp only [List.cons_append]
    by_cases hp : isPre sep (c :: (sch2 ++ sep)) = true
    · simp [splitFirstAux, hp]
    · simp only [splitFirstAux, hp, Bool.false_eq_true, if_false]
      cases hr : splitFirstAux sep (sch2 ++ sep) with
      | none => rw [hr] at ih; simp at ih
      | some pr => simp

/-- `takeWhile` ignores an appended part that is empty or starts with a
character failing the predicate. -/
theorem takeWhile_append_stop (p : Char → Bool) :
    ∀ (a tl : List Char), (tl = [] ∨ ∃ c r, tl = c :: r ∧ p c = false) →
      (a ++ tl).takeWhile p = a.takeWhile p := by
  intro a
  induction a with
  | nil =>
    intro tl h
    rcases h with h | ⟨c, r, h, hc⟩
    · simp [h]
    · simp [h, List.takeWhile, hc]
  | cons x xs ih =>
    intro tl h
    simp only [List.cons_append, List.takeWhile]
    cases hx : p x with
    | true => simp [ih tl h]
    | false => simp

/-- The prefix taken by `takeWhile` is not longer than the list. -/
theorem takeWhile_length_le (p : Char → Bool) :
    ∀ l : List Char, (l.takeWhile p).length ≤ l.length := by
  intro l
  induction l with
  | nil => simp
  | cons x xs ih =>
    simp only [List.takeWhile]
    cases p x with
    | true => simpa using ih
    | false => simp

/-- Appending a query string (after a question mark) to a URL that
contains a scheme separator does not change the query-stripped form. -/
theorem cleanChars_query (P q : List Char) (hsome : (splitFirstAux sepL P).isSome = true) :
    cleanChars (P ++ '?' :: q) = cleanChars P := by
  cases hP : splitFirstAux sepL P with
  | none => rw [hP] at hsome; simp at hsome
  | some pr =>
    have hApp := splitFirstAux_append sepL P pr ('?' :: q) hP
    simp only [cleanChars, hP, hApp]
    have hq : ∀ b : List Char, (b ++ '?' :: q).takeWhile notNetlocEnd = b.takeWhile notNetlocEnd :=
      fun b => takeWhile_append_stop notNetlocEnd b ('?' :: q) (Or.inr ⟨'?', q, rfl, rfl⟩)
    have hq2 : ∀ b : List Char, (b ++ '?' :: q).takeWhile notPathEnd = b.takeWhile notPathEnd :=
      fun b => takeWhile_append_stop notPathEnd b ('?' :: q) (Or.inr ⟨'?', q, rfl, rfl⟩)
    rw [hq pr.2]
    have hdrop : (pr.2 ++ '?' :: q).drop (pr.2.takeWhile notNetlocEnd).length
        = pr.2.drop (pr.2.takeWhile notNetlocEnd).length ++ '?' :: q :=
      List.drop_append_of_le_length (takeWhile_length_le notNetlocEnd pr.2)
    rw [hdrop, hq2]

/-- Two structured URLs sharing scheme, netloc and path clean to the same
key, whatever their query strings. -/
theorem cleanUrl_render_query (base : Url) (q1 q2 : String) :
    cleanUrl (renderUrl { base with query := q1 }) = cleanUrl (renderUrl { base with query := q2 }) := by
  have hsome : (splitFirstAux sepL
      ((base.scheme.data ++ sepL) ++ (base.netloc.data ++ base.path.data))).isSome = true := by
    have h0 : (splitFirstAux sepL (base.scheme.data ++ sepL)).isSome = true :=
      splitFirstAux_sep_isSome sepL (by decide) base.scheme.data
    cases h1 : splitFirstAux sepL (base.scheme.data ++ sepL) with
    | none => rw [h1] at h0; simp at h0
    | some pr =>
      rw [splitFirstAux_append sepL _ pr _ h1]
      simp
  have key : ∀ q : String,
      cleanChars (base.scheme.data ++ sepL ++ base.netloc.data ++ base.path.data ++
        (if q.data.isEmpty then [] else '?' :: q.data))
      = cleanChars ((base.scheme.data ++ sepL) ++ (base.netloc.data ++ base.path.data)) := by
    intro q
    cases hq : q.data with
    | nil => simp [List.append_assoc]
    | cons c r =>
      simp only [List.isEmpty_cons, Bool.false_eq_true, if_false]
      have h3 := cleanChars_query
        ((base.scheme.data ++ sepL) ++ (base.netloc.data ++ base.path.data)) (c :: r) hsome
      rw [← h3]
      congr 1
      simp [List.append_assoc]
  simp only [cleanUrl, renderUrl]
  congr 1
  rw [key q1, key q2]

/-- A cache hit returns the cached value and leaves the state (cache and
fetch count) unchanged. -/
theorem getLinkedin_hit (fetch : String → FetchOutcome) (st : RState) (u : String)
    (v : Option Resolved) (h : lookupC st.cache (cleanUrl u) = some v) :
    getLinkedinFromLumaUser fetch st u = (v, st) := by
  simp [getLinkedinFromLumaUser, h]

/-- After any call of the resolver, its cleaned key maps in the cache to
exactly the value the call returned. -/
theorem getLinkedin_lookup_result (fetch : String → FetchOutcome) (st : RState) (u : String) :
    lookupC (getLinkedinFromLumaUser fetch st u).2.cache (cleanUrl u)
      = some (getLinkedinFromLumaUser fetch st u).1 := by
  cases hl : lookupC st.cache (cleanUrl u) with
  | some v => simp [getLinkedinFromLumaUser, hl]
  | none =>
    cases hf : fetch (cleanUrl u) with
    | exn =>
      simp only [getLinkedinFromLumaUser, hl, hf]
      simp [lookupC, List.find?]
    | ok s b =>
      by_cases hs : s = 200
      · subst hs
        simp only [getLinkedinFromLumaUser, hl, hf]
        simp [lookupC, List.find?]
      · simp only [getLinkedinFromLumaUser, hl, hf]
        rw [if_pos hs]
        simp [lookupC, List.find?]

/-- C1: for two profile URLs that differ at most in their query string,
once the first has been resolved — to a result or to a cached null —
resolving the second is a pure cache hit on their common query-stripped
key: it performs no fetch, returns the first call's value and leaves the
resolver state unchanged. -/
theorem c1_cache_normalization_idempotent (base : Url) (q1 q2 : String)
    (fetch : String → FetchOutcome) (st : RState) :
    cleanUrl (renderUrl { base with query := q1 }) = cleanUrl (renderUrl { base with query := q2 }) ∧
    getLinkedinFromLumaUser fetch
        (getLinkedinFromLumaUser fetch st (renderUrl { base with query := q1 })).2
        (renderUrl { base with query := q2 })
      = ((getLinkedinFromLumaUser fetch st (renderUrl { base with query := q1 })).1,
         (getLinkedinFromLumaUser fetch st (renderUrl { base with query := q1 })).2) := by
  refine ⟨cleanUrl_render_query base q1 q2, ?_⟩
  apply getLinkedin_hit
  rw [← cleanUrl_render_query base q1 q2]
  exact getLinkedin_lookup_result fetch st (renderUrl { base with query := q1 })

/-- C2 counterexample: no retrying fetch contract holds.  With a stream
whose first attempt raises a transport error and whose second attempt
would succeed with status 200, resolution of an uncached profile returns
the null failure — the source makes a single `requests.get` and never
reaches the would-be second attempt. -/
theorem c2_counterexample : ¬ ClaimC2 := by
  rintro ⟨maxA, hA, h⟩
  have h2 := h cexOutcomes "https://lu.ma/user/x" 1 (by omega)
    (by intro i hi
        have hz : i = 0 := by omega
        subst hz
        rfl)
    ⟨pageEmpty, by decide⟩
  exact absurd h2 (by decide)

/-- C2 amended: a fetch that receives a non-2xx status or a transport
failure is not retried.  Exactly one attempt is performed, the failure is
cached as an explicit null under the cleaned key and returned immediately,
and the outcome never depends on any attempt beyond the first. -/
theorem c2_single_attempt_no_retry (outcomes : Nat → FetchOutcome) (url : String) (st : RState)
    (hmiss : lookupC st.cache (cleanUrl url) = none)
    (hfail : outcomes 0 = FetchOutcome.exn ∨
      ∃ s body, outcomes 0 = FetchOutcome.ok s body ∧ s ≠ 200) :
    (getLinkedinStream outcomes st url).1 = none ∧
    (getLinkedinStream outcomes st url).2.count = st.count + 1 ∧
    lookupC (getLinkedinStream outcomes st url).2.cache (cleanUrl url) = some none ∧
    ∀ outcomes2 : Nat → FetchOutcome, outcomes2 0 = outcomes 0 →
      getLinkedinStream outcomes2 st url = getLinkedinStream outcomes st url := by
  have heval : ∀ o : Nat → FetchOutcome, o 0 = outcomes 0 →
      getLinkedinStream o st url
        = (none, { cache := (cleanUrl url, none) :: st.cache, count := st.count + 1 }) := by
    intro o ho
    rcases hfail with hf | ⟨s, body, hf, hs⟩
    · rw [hf] at ho
      simp only [getLinkedinStream, getLinkedinFromLumaUser, hmiss, ho]
    · rw [hf] at ho
      simp only [getLinkedinStream, getLinkedinFromLumaUser, hmiss, ho]
      rw [if_pos hs]
  have he := heval outcomes rfl
  refine ⟨by rw [he], by rw [he], ?_, ?_⟩
  · rw [he]
    simp [lookupC, List.find?]
  · intro o2 ho2
    rw [heval o2 ho2, he]

/-- Witness for the amended C2 theorem at the concrete failing stream. -/
theorem c2_single_attempt_no_retry_witness :
    (lookupC rstate0.cache (cleanUrl "https://lu.ma/user/x") = none ∧
      (cexOutcomes 0 = FetchOutcome.exn ∨
        ∃ s body, cexOutcomes 0 = FetchOutcome.ok s body ∧ s ≠ 200)) ∧
    ((getLinkedinStream cexOutcomes rstate0 "https://lu.ma/user/x").1 = none ∧
     (getLinkedinStream cexOutcomes rstate0 "https://lu.ma/user/x").2.count = rstate0.count + 1 ∧
     lookupC (getLinkedinStream cexOutcomes rstate0 "https://lu.ma/user/x").2.cache
         (cleanUrl "https://lu.ma/user/x") = some none ∧
     ∀ outcomes2 : Nat → FetchOutcome, outcomes2 0 = cexOutcomes 0 →
       getLinkedinStream outcomes2 rstate0 "https://lu.ma/user/x"
         = getLinkedinStream cexOutcomes rstate0 "https://lu.ma/user/x") :=
  ⟨⟨rfl, Or.inl rfl⟩,
   c2_single_attempt_no_retry cexOutcomes "https://lu.ma/user/x" rstate0 rfl (Or.inl rfl)⟩

/-- `find?` returns the head of the filtered list. -/
theorem find?_eq_head?_filter {α : Type} (f : α → Bool) :
    ∀ l : List α, l.find? f = (l.filter f).head? := by
  intro l
  induction l with
  | nil => rfl
  | cons a t ih =>
    rw [List.find?_cons, List.filter_cons]
    cases hf : f a with
    | true => rfl
    | false =>
      simp only [Bool.false_eq_true, if_false]
      exact ih

/-- C3 counterexample: on a page whose first pattern-matching anchor and
first social-links anchor carry different LinkedIn URLs, the source's
chosen URL differs from the claimed first-match-wins (a)-(b)-(c) policy —
the social-links loop overwrites strategy (a)'s match. -/
theorem c3_counterexample : chooseLinkedin pce3 ≠ specChooseSocial pce3 := by decide

/-- C3 amended: the source's social-URL choice is an ordered policy with
the social-links grouping taking precedence over the pattern-matched
anchor scan, and with the raw-markup fallback (consulted only when both
anchored strategies fail) yielding the optional `www.` capture group of
the first match rather than the matched URL. -/
theorem c3_social_choice_described (p : Page) : chooseLinkedin p = chooseSocialDescribed p := by
  simp only [chooseLinkedin, chooseSocialDescribed, stratA, stratB, find?_eq_head?_filter]

/-- C4 counterexample: on a calendar page whose `a.event-link` anchor
yields no link (href not site-relative), whose `a.content-link` anchor
yields one, and whose fallback pattern matches a different anchor, the
source returns the fallback's link — the claimed policy would return the
second structural rule's link and nothing from the fallback scan. -/
theorem c4_counterexample :
    "https://lu.ma/xyz" ∈ extractEventLinksFromCalendar pce4 ∧
    "https://lu.ma/xyz" ∉ specExtractEventLinks pce4 := by decide

/-- C4 amended: the structural phase stops at the first selector matching
at least one element, and the fallback runs exactly when the structural
phase produced zero links; whenever the first selector, if it matches
elements at all, also yields at least one link, this coincides with the
claimed stop-at-first-matching-rule policy. -/
theorem c4_first_selector_yields_links (p : Page)
    (h : selectClassA p "event-link" ≠ [] → calRuleLinks (selectClassA p "event-link") ≠ []) :
    extractEventLinksFromCalendar p = specExtractEventLinks p := by
  by_cases h1 : selectClassA p "event-link" = []
  · have hstruct : calendarStructuralElems p = selectClassA p "content-link" := by
      simp [calendarStructuralElems, h1]
    have hnil : calRuleLinks ([] : List Elem) = [] := rfl
    by_cases h2 : calRuleLinks (selectClassA p "content-link") = []
    · simp [extractEventLinksFromCalendar, specExtractEventLinks, hstruct, h1, h2, hnil,
        List.isEmpty_iff]
    · simp [extractEventLinksFromCalendar, specExtractEventLinks, hstruct, h1, h2, hnil,
        List.isEmpty_iff]
  · have hlinks := h h1
    have hstruct : calendarStructuralElems p = selectClassA p "event-link" := by
      simp [calendarStructuralElems, List.isEmpty_iff, h1]
    simp [extractEventLinksFromCalendar, specExtractEventLinks, hstruct, hlinks,
      List.isEmpty_iff]

/-- Witness for the amended C4 theorem at a concrete calendar page. -/
theorem c4_first_selector_yields_links_witness :
    (selectClassA pw4 "event-link" ≠ [] → calRuleLinks (selectClassA pw4 "event-link") ≠ []) ∧
    extractEventLinksFromCalendar pw4 = specExtractEventLinks pw4 :=
  ⟨by decide, c4_first_selector_yields_links pw4 (by decide)⟩

/-- `fetch_participant_data` produces one row per submitted link,
unconditionally. -/
theorem fetchParticipantData_length (fetch : String → FetchOutcome) :
    ∀ (links : List String) (st : RState),
      ((fetchParticipantData fetch st links).1).length = links.length := by
  intro links
  induction links with
  | nil => intro st; rfl
  | cons u rest ih =>
    intro st
    simp only [fetchParticipantData, List.length_cons]
    rw [ih]

/-- The empty cache is consistent with every oracle. -/
theorem cacheConsistent_nil (fetch : String → FetchOutcome) : CacheConsistent fetch [] := by
  intro k v h
  simp [lookupC] at h

/-- Inserting the computed value for a key preserves cache consistency. -/
theorem cacheConsistent_insert (fetch : String → FetchOutcome)
    (cache : List (String × Option Resolved)) (key : String) (w : Option Resolved)
    (hc : CacheConsistent fetch cache) (hw : w = computeValue fetch key) :
    CacheConsistent fetch ((key, w) :: cache) := by
  intro k v hkv
  by_cases hk : key = k
  · subst hk
    simp [lookupC, List.find?_cons] at hkv
    rw [← hkv]
    exact hw
  · have h2 : lookupC cache k = some v := by
      simpa [lookupC, List.find?_cons, hk] using hkv
    exact hc k v h2

/-- Under a consistent cache, the resolver returns exactly the computed
value of its cleaned key and preserves consistency. -/
theorem getLinkedin_consistent (fetch : String → FetchOutcome) (st : RState) (u : String)
    (hc : CacheConsistent fetch st.cache) :
    (getLinkedinFromLumaUser fetch st u).1 = computeValue fetch (cleanUrl u) ∧
    CacheConsistent fetch (getLinkedinFromLumaUser fetch st u).2.cache := by
  cases hl : lookupC st.cache (cleanUrl u) with
  | some v =>
    rw [getLinkedin_hit fetch st u v hl]
    exact ⟨hc (cleanUrl u) v hl, hc⟩
  | none =>
    cases hf : fetch (cleanUrl u) with
    | exn =>
      have hcv : computeValue fetch (cleanUrl u) = none := by simp [computeValue, hf]
      constructor
      · simp only [getLinkedinFromLumaUser, hl, hf]
        rw [hcv]
      · simp only [getLinkedinFromLumaUser, hl, hf]
        exact cacheConsistent_insert fetch st.cache (cleanUrl u) none hc hcv.symm
    | ok s b =>
      by_cases hs : s = 200
      · subst hs
        have hcv : computeValue fetch (cleanUrl u) = some (parseProfile b) := by
          simp [computeValue, hf]
        constructor
        · simp only [getLinkedinFromLumaUser, hl, hf]
          rw [if_neg (by omega), hcv]
        · simp only [getLinkedinFromLumaUser, hl, hf]
          rw [if_neg (by omega)]
          exact cacheConsistent_insert fetch st.cache (cleanUrl u) (some (parseProfile b)) hc hcv.symm
      · have hcv : computeValue fetch (cleanUrl u) = none := by
          simp only [computeValue, hf]
          rw [if_pos hs]
        constructor
        · simp only [getLinkedinFromLumaUser, hl, hf]
          rw [if_pos hs, hcv]
        · simp only [getLinkedinFromLumaUser, hl, hf]
          rw [if_pos hs]
          exact cacheConsistent_insert fetch st.cache (cleanUrl u) none hc hcv.symm

/-- Under a consistent cache, the participant rows are exactly the
pure per-link rows, and consistency is preserved. -/
theorem fetchParticipantData_rows (fetch : String → FetchOutcome) :
    ∀ (links : List String) (st : RState), CacheConsistent fetch st.cache →
      (fetchParticipantData fetch st links).1 = links.map (mkRow fetch) ∧
      CacheConsistent fetch (fetchParticipantData fetch st links).2.cache := by
  intro links
  induction links with
  | nil => intro st hc; exact ⟨rfl, hc⟩
  | cons u rest ih =>
    intro st hc
    have h1 := getLinkedin_consistent fetch st u hc
    have h2 := ih (getLinkedinFromLumaUser fetch st u).2 h1.2
    constructor
    · simp only [fetchParticipantData, List.map_cons]
      rw [h1.1, h2.1]
      rfl
    · simp only [fetchParticipantData]
      exact h2.2

/-- In a duplicate-free list, a present element is counted once. -/
theorem countP_beq_one_of_nodup (a : String) :
    ∀ l : List String, l.Nodup → a ∈ l → l.countP (fun u => u == a) = 1 := by
  intro l
  induction l with
  | nil => intro _ h; simp at h
  | cons b t ih =>
    intro hnd hmem
    have hnd2 := List.nodup_cons.mp hnd
    by_cases hb : b = a
    · subst hb
      have hz : t.countP (fun u => u == b) = 0 := by
        rw [List.countP_eq_zero]
        intro x hx
        simp only [beq_iff_eq]
        intro he
        subst he
        exact hnd2.1 hx
      rw [List.countP_cons]
      simp [hz]
    · have hmem2 : a ∈ t := by
        rcases List.mem_cons.mp hmem with h | h
        · exact absurd h.symm hb
        · exact h
      rw [List.countP_cons]
      simp [hb, ih hnd2.2 hmem2]

/-- Set-style insertion preserves duplicate-freedom. -/
theorem addLink_nodup (acc : List String) (s : String) (h : acc.Nodup) :
    (addLink acc s).Nodup := by
  rw [addLink]
  by_cases hc : s ∈ acc
  · rw [if_pos hc]
    exact h
  · rw [if_neg hc]
    refine List.Nodup.append h (List.nodup_singleton s) ?_
    intro x hx hxs
    rw [List.mem_singleton] at hxs
    subst hxs
    exact hc hx

/-- Folding set-style insertions preserves duplicate-freedom. -/
theorem foldl_addLink_nodup (xs : List String) :
    ∀ acc : List String, acc.Nodup → (xs.foldl addLink acc).Nodup := by
  induction xs with
  | nil => intro acc h; exact h
  | cons x t ih =>
    intro acc h
    exact ih (addLink acc x) (addLink_nodup acc x h)

/-- A conditional insertion pass preserves duplicate-freedom. -/
theorem addLinksIf_nodup (cond : Elem → Bool) (mk : Elem → String) :
    ∀ (es : List Elem) (acc : List String), acc.Nodup → (addLinksIf cond mk es acc).Nodup := by
  intro es
  induction es with
  | nil => intro acc h; exact h
  | cons e t ih =>
    intro acc h
    have hstep : (if cond e = true then addLink acc (mk e) else acc).Nodup := by
      cases hce : cond e with
      | true => simpa using addLink_nodup acc (mk e) h
      | false => simpa using h
    have heq : addLinksIf cond mk (e :: t) acc
        = addLinksIf cond mk t (if cond e = true then addLink acc (mk e) else acc) := rfl
    rw [heq]
    exact ih _ hstep

/-- The pattern-scan fold of step 2 preserves duplicate-freedom. -/
theorem hostsFold_nodup (p : Page) :
    ∀ (hs : List (List Char)) (acc : List String), acc.Nodup →
      (hs.foldl (fun acc2 host =>
        (findAllPat host p.raw.data).foldl addLink
          (addLinksIf (fun e => (matchUrlPatAt host (hrefOf e).data).isSome)
            hrefOf (anchorsOf p) acc2)) acc).Nodup := by
  intro hs
  induction hs with
  | nil => intro acc h; exact h
  | cons host t ih =>
    intro acc h
    exact ih _ (foldl_addLink_nodup _ _ (addLinksIf_nodup _ _ _ _ h))

/-- The discovered participant-link list is duplicate-free: its length is
the size of the discovered set. -/
theorem eventUserLinks_nodup (p : Page) : (eventUserLinks p).Nodup := by
  apply addLinksIf_nodup
  rw [eventStep2]
  by_cases h : (eventStep1 p).isEmpty = true
  · rw [if_pos h]
    apply hostsFold_nodup
    exact addLinksIf_nodup _ _ _ [] List.nodup_nil
  · rw [if_neg h]
    exact addLinksIf_nodup _ _ _ [] List.nodup_nil

/-- A null event record from `extract_event_data` comes with an empty
link list. -/
theorem extractEventData_none (fetch : String → FetchOutcome) (url : String) (links : List String)
    (h : extractEventData fetch url = (none, links)) : links = [] := by
  cases hf : fetch url with
  | exn =>
    simp only [extractEventData, hf, Prod.mk.injEq] at h
    exact h.2.symm
  | ok s b =>
    by_cases hs : s = 200
    · subst hs
      simp only [extractEventData, hf] at h
      rw [if_neg (by omega)] at h
      exact absurd h (by simp)
    · simp only [extractEventData, hf] at h
      rw [if_pos hs] at h
      simp only [Prod.mk.injEq] at h
      exact h.2.symm

/-- A present event record from `extract_event_data` pins down the fetch
outcome, the link list and the stored participant count. -/
theorem extractEventData_some (fetch : String → FetchOutcome) (url : String)
    (ed : EventData) (links : List String)
    (h : extractEventData fetch url = (some ed, links)) :
    ∃ b, fetch url = FetchOutcome.ok 200 b ∧ links = eventUserLinks b ∧
      ed.participant_count = (eventUserLinks b).length := by
  cases hf : fetch url with
  | exn =>
    simp only [extractEventData, hf] at h
    exact absurd h (by simp)
  | ok s b =>
    by_cases hs : s = 200
    · subst hs
      refine ⟨b, rfl, ?_, ?_⟩
      · simp only [extractEventData, hf] at h
        rw [if_neg (by omega)] at h
        simp only [Prod.mk.injEq, Option.some.injEq] at h
        exact h.2.symm
      · simp only [extractEventData, hf] at h
        rw [if_neg (by omega)] at h
        simp only [Prod.mk.injEq, Option.some.injEq] at h
        rw [← h.1]
    · simp only [extractEventData, hf] at h
      rw [if_pos hs] at h
      exact absurd h (by simp)

/-- C5: when the participant cap is `k` and more than `k` participant
links were discovered for an event, exactly `k` participant rows are
produced for it; the surplus links are dropped without any error value. -/
theorem c5_participant_cap (fetch : String → FetchOutcome) (k : Nat) (st : RState) (url : String)
    (h : k < (extractEventData fetch url).2.length) :
    ((processEvent fetch k st url).2.1).length = k := by
  cases hE : extractEventData fetch url with
  | mk edOpt links =>
    rw [hE] at h
    simp only at h
    cases edOpt with
    | none =>
      have h0 : links = [] := extractEventData_none fetch url links hE
      subst h0
      simp at h
    | some ed =>
      simp only [processEvent, hE]
      have hne : ¬(links.isEmpty = true) := by
        cases links with
        | nil => simp at h
        | cons a t => simp
      rw [if_neg hne]
      simp only
      rw [fetchParticipantData_length, capLinks, if_pos h, List.length_take]
      omega

/-- Witness for C5 at a concrete event page with five discovered links
and a cap of two. -/
theorem c5_participant_cap_witness :
    2 < (extractEventData fetch5 "https://lu.ma/ev1").2.length ∧
    ((processEvent fetch5 2 rstate0 "https://lu.ma/ev1").2.1).length = 2 :=
  ⟨by decide, c5_participant_cap fetch5 2 rstate0 "https://lu.ma/ev1" (by decide)⟩

/-- C6: for a successfully processed event, the stored participant count
is the size of the pre-resolution candidate link set (the list is
duplicate-free, so its length is the set size), while the rows actually
produced for the event number only `min` of that size and the cap. -/
theorem c6_participant_count_pre_resolution (fetch : String → FetchOutcome) (url : String)
    (ed : EventData) (links : List String)
    (h : extractEventData fetch url = (some ed, links)) :
    ed.participant_count = links.length ∧ links.Nodup ∧
    ∀ k st, ((processEvent fetch k st url).2.1).length = min links.length k := by
  obtain ⟨b, hf, hl, hcount⟩ := extractEventData_some fetch url ed links h
  refine ⟨by rw [hl]; exact hcount, by rw [hl]; exact eventUserLinks_nodup b, ?_⟩
  intro k st
  simp only [processEvent, h]
  by_cases he : links.isEmpty = true
  · rw [if_pos he]
    have h0 : links = [] := List.isEmpty_iff.mp he
    subst h0
    simp
  · rw [if_neg he]
    simp only
    rw [fetchParticipantData_length, capLinks]
    by_cases hk : k < links.length
    · rw [if_pos hk, List.length_take]
      omega
    · rw [if_neg hk]
      omega

/-- Witness for C6 at a concrete event page with five discovered links. -/
theorem c6_participant_count_pre_resolution_witness :
    extractEventData fetch5 "https://lu.ma/ev1"
        = (some ((extractEventData fetch5 "https://lu.ma/ev1").1.getD edDefault),
           (extractEventData fetch5 "https://lu.ma/ev1").2) ∧
    (((extractEventData fetch5 "https://lu.ma/ev1").1.getD edDefault).participant_count
        = (extractEventData fetch5 "https://lu.ma/ev1").2.length ∧
     (extractEventData fetch5 "https://lu.ma/ev1").2.Nodup ∧
     ∀ k st, ((processEvent fetch5 k st "https://lu.ma/ev1").2.1).length
        = min (extractEventData fetch5 "https://lu.ma/ev1").2.length k) :=
  ⟨by decide,
   c6_participant_count_pre_resolution fetch5 "https://lu.ma/ev1"
     ((extractEventData fetch5 "https://lu.ma/ev1").1.getD edDefault)
     (extractEventData fetch5 "https://lu.ma/ev1").2 (by decide)⟩

/-- A failed event fetch makes `processEvent` return the absent record,
no rows, and an unchanged resolver state. -/
theorem processEvent_fail (fetch : String → FetchOutcome) (maxP : Nat) (url : String)
    (h : fetchFails fetch url = true) :
    ∀ st, processEvent fetch maxP st url = (none, [], st) := by
  intro st
  rw [fetchFails] at h
  cases hf : fetch url with
  | exn => simp [processEvent, extractEventData, hf]
  | ok s b =>
    rw [hf] at h
    simp only [decide_eq_true_eq] at h
    simp only [processEvent, extractEventData, hf]
    rw [if_pos h]

/-- An event whose processing yields nothing and leaves the state
untouched can be deleted from the batch without changing its output. -/
theorem mainLoop_skip (fetch : String → FetchOutcome) (maxP : Nat) (url : String)
    (us2 : List String) (hskip : ∀ st, processEvent fetch maxP st url = (none, [], st)) :
    ∀ (us1 : List String) (st : RState),
      mainLoop fetch maxP st (us1 ++ url :: us2) = mainLoop fetch maxP st (us1 ++ us2) := by
  intro us1
  induction us1 with
  | nil =>
    intro st
    simp only [List.nil_append, mainLoop]
    rw [hskip st]
  | cons u t ih =>
    intro st
    simp only [List.cons_append, mainLoop]
    rcases hp : processEvent fetch maxP st u with ⟨edOpt, rows, st2⟩
    cases edOpt with
    | some ed =>
      simp only [List.append_eq]
      rw [ih st2]
    | none =>
      simp only [List.append_eq]
      rw [ih st2]

/-- C7: an event URL whose page fetch fails (transport error or non-200
status) contributes the absent record and no rows, leaves the resolver
state untouched, and the batch over the remaining event URLs is exactly
the batch without that URL — a per-event failure never aborts the batch. -/
theorem c7_event_failure_isolated (fetch : String → FetchOutcome) (maxP : Nat) (st : RState)
    (url : String) (us1 us2 : List String) (h : fetchFails fetch url = true) :
    processEvent fetch maxP st url = (none, [], st) ∧
    mainLoop fetch maxP st (us1 ++ url :: us2) = mainLoop fetch maxP st (us1 ++ us2) :=
  ⟨processEvent_fail fetch maxP url h st,
   mainLoop_skip fetch maxP url us2 (processEvent_fail fetch maxP url h) us1 st⟩

/-- Witness for C7 at a concrete always-failing oracle. -/
theorem c7_event_failure_isolated_witness :
    fetchFails fetchExn "https://lu.ma/ev1" = true ∧
    (processEvent fetchExn 50 rstate0 "https://lu.ma/ev1" = (none, [], rstate0) ∧
     mainLoop fetchExn 50 rstate0
         (["https://lu.ma/a"] ++ "https://lu.ma/ev1" :: ["https://lu.ma/b"])
       = mainLoop fetchExn 50 rstate0 (["https://lu.ma/a"] ++ ["https://lu.ma/b"])) :=
  ⟨rfl, c7_event_failure_isolated fetchExn 50 rstate0 "https://lu.ma/ev1"
    ["https://lu.ma/a"] ["https://lu.ma/b"] rfl⟩

/-- C8: participant resolution produces exactly one row per input link
(the input is a set, hence duplicate-free): the row count equals the link
count, each link owns exactly one row, and a link whose resolution fails
still yields its row with display name and external URL both absent. -/
theorem c8_one_row_per_link (fetch : String → FetchOutcome) (st : RState) (links : List String)
    (hc : CacheConsistent fetch st.cache) (hd : links.Nodup) :
    ((fetchParticipantData fetch st links).1).length = links.length ∧
    ∀ url, url ∈ links →
      ((fetchParticipantData fetch st links).1.countP (fun r => r.luma_profile == url) = 1 ∧
       ∀ r, r ∈ (fetchParticipantData fetch st links).1 → r.luma_profile = url →
         computeValue fetch (cleanUrl url) = none → r.name = none ∧ r.linkedin_url = none) := by
  have hrows := (fetchParticipantData_rows fetch links st hc).1
  constructor
  · rw [hrows, List.length_map]
  · intro url hmem
    constructor
    · rw [hrows, List.countP_map]
      have hcomp : ((fun r => r.luma_profile == url) ∘ mkRow fetch) = (fun u => u == url) := by
        funext u
        simp [mkRow]
      rw [hcomp]
      exact countP_beq_one_of_nodup url links hd hmem
    · intro r hr hprof hnone
      rw [hrows] at hr
      obtain ⟨u2, hu2, hru⟩ := List.mem_map.mp hr
      subst hru
      simp only [mkRow] at hprof
      subst hprof
      simp [mkRow, hnone]

/-- Witness for C8 at a single-link set whose resolution fails. -/
theorem c8_one_row_per_link_witness :
    (CacheConsistent fetchExn rstate0.cache ∧ (["https://lu.ma/user/aa"] : List String).Nodup) ∧
    (((fetchParticipantData fetchExn rstate0 ["https://lu.ma/user/aa"]).1).length
        = (["https://lu.ma/user/aa"] : List String).length ∧
     ∀ url, url ∈ (["https://lu.ma/user/aa"] : List String) →
       ((fetchParticipantData fetchExn rstate0 ["https://lu.ma/user/aa"]).1.countP
           (fun r => r.luma_profile == url) = 1 ∧
        ∀ r, r ∈ (fetchParticipantData fetchExn rstate0 ["https://lu.ma/user/aa"]).1 →
          r.luma_profile = url → computeValue fetchExn (cleanUrl url) = none →
          r.name = none ∧ r.linkedin_url = none)) :=
  ⟨⟨cacheConsistent_nil fetchExn, by decide⟩,
   c8_one_row_per_link fetchExn rstate0 ["https://lu.ma/user/aa"]
     (cacheConsistent_nil fetchExn) (by decide)⟩

/-- C10: an event whose page fetch succeeds but from which zero
participant links are extracted is silently omitted: an event record was
built, yet the batch output contains neither the record nor any rows for
that event, exactly as if the URL had not been in the batch. -/
theorem c10_zero_links_event_omitted (fetch : String → FetchOutcome) (maxP : Nat) (st : RState)
    (url : String) (body : Page) (us1 us2 : List String)
    (h1 : fetch url = FetchOutcome.ok 200 body) (h2 : eventUserLinks body = []) :
    (extractEventData fetch url).1.isSome = true ∧
    processEvent fetch maxP st url = (none, [], st) ∧
    mainLoop fetch maxP st (us1 ++ url :: us2) = mainLoop fetch maxP st (us1 ++ us2) := by
  have hskip : ∀ st2, processEvent fetch maxP st2 url = (none, [], st2) := by
    intro st2
    simp only [processEvent, extractEventData, h1]
    rw [if_neg (by omega)]
    simp [h2]
  refine ⟨?_, hskip st, mainLoop_skip fetch maxP url us2 hskip us1 st⟩
  simp only [extractEventData, h1]
  rw [if_neg (by omega)]
  rfl

/-- Witness for C10 at a concrete empty event page. -/
theorem c10_zero_links_event_omitted_witness :
    (fetchEmptyOk "https://lu.ma/ev1" = FetchOutcome.ok 200 pageEmpty ∧
     eventUserLinks pageEmpty = []) ∧
    ((extractEventData fetchEmptyOk "https://lu.ma/ev1").1.isSome = true ∧
     processEvent fetchEmptyOk 50 rstate0 "https://lu.ma/ev1" = (none, [], rstate0) ∧
     mainLoop fetchEmptyOk 50 rstate0
         (["https://lu.ma/a"] ++ "https://lu.ma/ev1" :: ["https://lu.ma/b"])
       = mainLoop fetchEmptyOk 50 rstate0 (["https://lu.ma/a"] ++ ["https://lu.ma/b"])) :=
  ⟨⟨rfl, rfl⟩,
   c10_zero_links_event_omitted fetchEmptyOk 50 rstate0 "https://lu.ma/ev1" pageEmpty
     ["https://lu.ma/a"] ["https://lu.ma/b"] rfl rfl⟩

set_option maxRecDepth 8000 in
/-- Every interleaving step preserves the two-worker invariant. -/
theorem inv9_step : ∀ (s : S9) (i : Bool), inv9 s = true → inv9 (step9 s i) = true := by decide

/-- Every run from an invariant state reaches an invariant state. -/
theorem inv9_run (sched : List Bool) : ∀ s : S9, inv9 s = true → inv9 (run9 sched s) = true := by
  induction sched with
  | nil => intro s h; exact h
  | cons i t ih =>
    intro s h
    exact ih (step9 s i) (inv9_step s i h)

set_option maxRecDepth 8000 in
/-- In an invariant state where both workers finished, the key is present
and between one and two GETs happened. -/
theorem inv9_done_facts : ∀ s : S9, inv9 s = true → Done9 s →
    s.present = true ∧ 1 ≤ fetches9 s ∧ fetches9 s ≤ 2 := by decide

/-- C9 counterexample: a schedule in which both workers pass the
unsynchronized cache membership check before either writes makes both
invoke the underlying GET — the claimed mutual exclusion around
check-then-insert, with at most one worker computing, does not hold. -/
theorem c9_counterexample :
    Done9 (run9 cexSched init9) ∧ fetches9 (run9 cexSched init9) = 2 := by decide

/-- C9 amended: cache accesses are individually atomic but carry no
mutual exclusion around check-then-insert, so two concurrent resolutions
of the same normalized key may each invoke the underlying GET; still,
every completed pair of resolutions ends with the key present in the
cache and with at least one and at most two GET invocations in total. -/
theorem c9_unsynchronized_cache (sched : List Bool) (h : Done9 (run9 sched init9)) :
    (run9 sched init9).present = true ∧
    1 ≤ fetches9 (run9 sched init9) ∧ fetches9 (run9 sched init9) ≤ 2 :=
  inv9_done_facts (run9 sched init9) (inv9_run sched init9 (by decide)) h

/-- Witness for the amended C9 theorem at a serial schedule. -/
theorem c9_unsynchronized_cache_witness :
    Done9 (run9 wSched init9) ∧
    ((run9 wSched init9).present = true ∧
     1 ≤ fetches9 (run9 wSched init9) ∧ fetches9 (run9 wSched init9) ≤ 2) :=
  ⟨by decide, c9_unsynchronized_cache wSched (by decide)⟩
